import Mathlib

/-!
Shallow embedding of the reclamation engine of `english-openlist` (Phase 3
update pipeline): the heuristic prioritizer, rule validator, verification
matcher and checkpointed orchestrator from `scripts/validate_invalid_list.py`,
`scripts/word_validator.py` and `scripts/dictionary_api.py`, together with
theorems checking the specification's claims about them.

Modelling conventions:
* Python floats: every score adjustment in `score_word` is an integer, so
  scores are modelled as `Int`; the two fractional comparisons
  (vowel fraction, letter diversity) are modelled as exact rational
  comparisons by cross-multiplication, which agrees with the float
  computation for all word lengths reachable in this code.
* `random.sample` / `random.shuffle` are modelled by an explicit `RandomSource`
  record of injectable functions; theorems assume only the documented
  behaviour of the library functions (sampling returns elements of the
  population, shuffling permutes the list).
* Python exceptions (`ZeroDivisionError` and `ValueError` in
  `prioritize_words` / `run_daily_validation`, `IndexError` in `score_word`)
  are modelled with `Except String`.
* Python `set` literals (prefix/suffix sets) are modelled as lists in the
  literal order of the source; at most one member can fire per word for the
  score-relevant checks, so iteration order only affects reason strings.
* Wall-clock fields (`date`, `duration_seconds`) and logging are elided,
  except where a logging statement can raise, which is modelled faithfully.
-/

/-- `WordStatus` from `scripts/dictionary_api.py`. -/
inductive WordStatus where
  | valid
  | invalid
  | notFound
  | properNoun
  | abbreviation
  | error
deriving Repr, DecidableEq

/-- `CandidateWord` dataclass: a word candidate with its priority score. -/
structure CandidateWord where
  word : String
  score : Int
  reasons : List String
deriving Repr, DecidableEq

/-- Injectable randomness: `random.sample` and `random.shuffle` as used by
`WordPrioritizer.prioritize_words` and the sample mode of the orchestrator. -/
structure RandomSource where
  sample : List String → Nat → List String
  shuffleCands : List CandidateWord → List CandidateWord

/-- Deterministic instantiation used for concrete evaluations: `sample`
takes the first `k` elements and `shuffleCands` is the identity (both are
legal behaviours of the Python library functions). -/
def cRand : RandomSource :=
  { sample := fun xs k => xs.take k
    shuffleCands := fun xs => xs }

/-- Vowel test `c in 'aeiou'`. -/
def isVowel (c : Char) : Bool := "aeiou".data.contains c

/-- `p` occurs at the start of `cs` (`str.startswith` / anchored regex). -/
def startsSeq : List Char → List Char → Bool
  | [], _ => true
  | _ :: _, [] => false
  | p :: ps, c :: cs => p == c && startsSeq ps cs

/-- `p` occurs somewhere in `cs` (`re.search` of a literal / `in`). -/
def containsSeq (p : List Char) : List Char → Bool
  | [] => startsSeq p []
  | c :: cs => startsSeq p (c :: cs) || containsSeq p cs

/-- `cs` ends with `p` (`str.endswith` / `$`-anchored regex literal). -/
def endsSeq (p : List Char) (cs : List Char) : Bool :=
  startsSeq p.reverse cs.reverse

/-- Substring containment on strings (Python `sub in s`). -/
def strContains (s sub : String) : Bool := containsSeq sub.data s.data

/-- Python `str.lower` (ASCII case mapping; the corpus and entry fields are
ASCII). -/
def pyLower (s : String) : String := String.mk (s.data.map Char.toLower)

/-- Python `str.strip`: remove leading and trailing whitespace. -/
def pyStrip (s : String) : String :=
  String.mk (((s.data.dropWhile Char.isWhitespace).reverse.dropWhile
    Char.isWhitespace).reverse)

/-- `n` consecutive characters satisfying `p` occur somewhere
(regex `[class]{n,}`). -/
def hasRun (p : Char → Bool) (n : Nat) : List Char → Bool
  | [] => decide (n = 0)
  | c :: cs => ((c :: cs).take n).length == n && ((c :: cs).take n).all p
      || hasRun p n cs

/-- The first `n` characters exist and satisfy `p` (regex `^[class]{n}`). -/
def startRun (p : Char → Bool) (n : Nat) (cs : List Char) : Bool :=
  (cs.take n).length == n && (cs.take n).all p

/-- The last `n` characters exist and satisfy `p` (regex `[class]{n}$`). -/
def endRun (p : Char → Bool) (n : Nat) (cs : List Char) : Bool :=
  startRun p n cs.reverse

/-- Regex `(.)\1{2,}`: some character repeated three or more times. -/
def hasTriple : List Char → Bool
  | c1 :: c2 :: c3 :: rest => (c1 == c2 && c2 == c3) || hasTriple (c2 :: c3 :: rest)
  | _ => false

/-- Regex `q(?!u)`: a `q` not followed by `u` (including a final `q`). -/
def qNotU : List Char → Bool
  | [] => false
  | c :: cs =>
      (c == 'q' && (match cs with | [] => true | d :: _ => d != 'u'))
      || qNotU cs

/-- Regex `cz[aeiou]`. -/
def czVowel : List Char → Bool
  | c :: z :: v :: rest =>
      (c == 'c' && z == 'z' && isVowel v) || czVowel (z :: v :: rest)
  | _ => false

/-- Regex `gh[^t]`: `gh` followed by a character other than `t`. -/
def ghNonT : List Char → Bool
  | g :: h :: x :: rest =>
      (g == 'g' && h == 'h' && x != 't') || ghNonT (h :: x :: rest)
  | _ => false

def nonVowelChar (c : Char) : Bool := !isVowel c

def rareConsonant (c : Char) : Bool := "jkqvwxz".data.contains c

def nonLowerAlpha (c : Char) : Bool := decide (c < 'a' ∨ 'z' < c)

/-- Disjunction of `WordPrioritizer.NON_ENGLISH_PATTERNS`: `word` matches at
least one of the compiled patterns (`pattern.search(word)` succeeds). -/
def nonEnglishMatch (cs : List Char) : Bool :=
  hasTriple cs
  || startRun nonVowelChar 5 cs
  || hasRun nonVowelChar 5 cs
  || hasRun isVowel 4 cs
  || qNotU cs
  || hasRun rareConsonant 3 cs
  || cs.any nonLowerAlpha
  || containsSeq "szcz".data cs || containsSeq "zcz".data cs
  || containsSeq "tsz".data cs || czVowel cs
  || endsSeq "ough".data cs || endsSeq "ght".data cs
  || containsSeq "schw".data cs || containsSeq "tsch".data cs
  || containsSeq "ção".data cs || containsSeq "ões".data cs
  || endsSeq "ão".data cs
  || containsSeq "ñ".data cs || containsSeq "ü".data cs
  || containsSeq "ö".data cs || containsSeq "ä".data cs
  || containsSeq "ß".data cs
  || startRun nonVowelChar 4 cs
  || endRun nonVowelChar 4 cs
  || containsSeq "kh".data cs || ghNonT cs
  || containsSeq "zh".data cs || containsSeq "dj".data cs

/-- `WordPrioritizer.PRODUCTIVE_PREFIXES` in source literal order. -/
def productiveSet : List String :=
  ["anti", "non", "pre", "post", "multi", "semi", "pseudo", "quasi",
   "ultra", "super", "hyper", "mega", "micro", "macro", "neo", "proto",
   "counter", "inter", "intra", "extra", "trans"]

/-- `WordPrioritizer.REAL_WORD_PREFIXES` in source literal order. -/
def realWordSet : List String :=
  ["un", "re", "dis", "mis", "over", "out", "under"]

/-- `WordPrioritizer.SUFFIXES` in source literal order. -/
def suffixSet : List String :=
  ["ing", "ed", "er", "est", "ly", "tion", "sion", "ness", "ment",
   "able", "ible", "ful", "less", "ous", "ive", "al", "ical",
   "ity", "ance", "ence", "ism", "ist"]

/-- `WordPrioritizer.is_likely_english`: Stage A pre-filter. -/
def isLikelyEnglish (word : String) : Bool :=
  let cs := word.data
  if cs.length < 3 || 15 < cs.length then false
  else if nonEnglishMatch cs then false
  else
    -- vowel fraction outside [0.15, 0.6] (exact rational comparison)
    let v := (cs.filter isVowel).length
    if 20 * v < 3 * cs.length || 5 * v > 3 * cs.length then false
    else if productiveSet.any
        (fun p => startsSeq p.data cs && decide (p.data.length + 3 < cs.length)) then
      false
    else true

/-- `WordPrioritizer.score_word`.  The `IndexError` of `word[0]` on the empty
string is modelled with `Except.error`. -/
def scoreWord (word : String) : Except String CandidateWord :=
  let cs := word.data
  let l := cs.length
  let s0 : Int := 50
  let sr1 : Int × List String :=
    if 3 ≤ l ∧ l ≤ 5 then (s0 + 25, ["short word (" ++ toString l ++ " chars)"])
    else if 6 ≤ l ∧ l ≤ 8 then (s0 + 15, ["medium word (" ++ toString l ++ " chars)"])
    else if 9 ≤ l ∧ l ≤ 12 then (s0 + 5, ["longer word (" ++ toString l ++ " chars)"])
    else if l = 2 then (s0 + 10, ["2-letter word"])
    else if 13 ≤ l ∧ l ≤ 16 then (s0 - 10, ["long word"])
    else (s0 - 30, ["very long (" ++ toString l ++ " chars)"])
  let sr2 : Int × List String :=
    match productiveSet.find?
        (fun p => startsSeq p.data cs && decide (p.data.length + 3 < l)) with
    | some p => (sr1.1 - 35, sr1.2 ++ ["productive prefix compound: " ++ p ++ "-"])
    | none => sr1
  let sr3 : Int × List String :=
    match realWordSet.find?
        (fun p => startsSeq p.data cs && decide (p.data.length + 2 < l)) with
    | some p =>
        if l ≤ 10 then (sr2.1 + 5, sr2.2 ++ ["real-word prefix: " ++ p ++ "-"])
        else sr2
    | none => sr2
  let sr4 : Int × List String :=
    match suffixSet.find?
        (fun s => endsSeq s.data cs && decide (s.data.length + 2 < l)) with
    | some s =>
        if l ≤ 10 then (sr3.1 + 5, sr3.2 ++ ["common suffix: -" ++ s])
        else sr3
    | none => sr3
  let v := (cs.filter isVowel).length
  -- 0.25 <= vowels/length <= 0.5 (exact rational comparison)
  let sr5 : Int × List String :=
    if 0 < l ∧ l ≤ 4 * v ∧ 2 * v ≤ l then (sr4.1 + 10, sr4.2 ++ ["good vowel balance"])
    else if 0 < l then (sr4.1 - 10, sr4.2 ++ ["poor vowel balance"])
    else sr4
  match cs with
  | [] => .error "IndexError"
  | c :: _ =>
    let sr6 : Int × List String :=
      if "stcpbdmrahfglewn".data.contains c then (sr5.1 + 5, sr5.2 ++ ["common starting letter"])
      else sr5
    -- len(set(word)) >= len(word) * 0.6 (exact rational comparison)
    let sr7 : Int × List String :=
      if 3 * l ≤ 5 * cs.eraseDups.length then (sr6.1 + 5, sr6.2 ++ ["good letter diversity"])
      else sr6
    .ok { word := word, score := max 0 (min 100 sr7.1), reasons := sr7.2 }

/-- The list comprehension `[self.score_word(word) for word in likely_english]`:
left-to-right, the first exception propagates. -/
def mapScoreWord : List String → Except String (List CandidateWord)
  | [] => .ok []
  | w :: ws =>
    match scoreWord w with
    | .error e => .error e
    | .ok c =>
      match mapScoreWord ws with
      | .error e => .error e
      | .ok cs => .ok (c :: cs)

/-- `int(c.score // 5) * 5`: the 5-point score tier of a candidate. -/
def tierOf (c : CandidateWord) : Int := c.score / 5 * 5

/-- The keys iterated by `sorted(tiers.keys(), reverse=True)`: every possible
tier of a clamped score, in descending order (absent tiers are skipped by
`tierFold`, matching iteration over the keys actually present). -/
def tierVals : List Int := (List.range 21).map (fun i => ((5 * (20 - i) : Nat) : Int))

/-- The selection loop of `prioritize_words`: walk tiers from highest to
lowest, shuffle within each non-empty tier, and take candidates until `limit`
is reached. -/
def tierFold (r : RandomSource) (cands : List CandidateWord) (limit : Nat) :
    List Int → List CandidateWord → List CandidateWord
  | [], acc => acc
  | t :: ts, acc =>
    if (cands.filter (fun c => tierOf c == t)).isEmpty then
      tierFold r cands limit ts acc
    else
      tierFold r cands limit ts
        (acc ++ (r.shuffleCands (cands.filter (fun c => tierOf c == t))).take
          (limit - acc.length))

/-- The local variable `likely_english` after Stage A pre-filtering. -/
def likelyEnglishOf (words : List String) : List String :=
  words.filter isLikelyEnglish

/-- The local variable `likely_english` after the optional sampling step:
when more than `limit * 10` words survive the pre-filter, draw
`min(len(likely_english), limit * 50)` of them with `random.sample`. -/
def sampledPool (r : RandomSource) (words : List String) (limit : Nat) : List String :=
  if limit * 10 < (likelyEnglishOf words).length then
    r.sample (likelyEnglishOf words) (min (likelyEnglishOf words).length (limit * 50))
  else likelyEnglishOf words

/-- `WordPrioritizer.prioritize_words`.  Two logging statements can raise and
are modelled: the pre-filter percentage divides by `len(words)`
(`ZeroDivisionError` on an empty input), and the final summary takes
`min(tiers.keys())` (`ValueError` when no word passed the pre-filter). -/
def prioritizeWords (r : RandomSource) (words : List String) (limit : Nat) :
    Except String (List CandidateWord) :=
  if words.length = 0 then .error "ZeroDivisionError"
  else
    match mapScoreWord (sampledPool r words limit) with
    | .error e => .error e
    | .ok cands =>
      if cands.isEmpty then .error "ValueError"
      else .ok (tierFold r cands limit tierVals [])

/-- `ValidationResult` dataclass from `scripts/word_validator.py`. -/
structure ValidationResult where
  word : String
  is_valid : Bool
  reason : Option String := none
deriving Repr, DecidableEq

/-- `WordValidator.validate` with the default `VALIDATION_RULES`
(`lowercase_only`, `alphabetic_only`, `min_length = 2`, `max_length = 45`). -/
def wvValidate (word : String) : ValidationResult :=
  if word = "" then
    { word := word, is_valid := false, reason := some "Empty or None word" }
  else
    let w1 := pyStrip word
    if w1 ≠ pyLower w1 then
      { word := word, is_valid := false,
        reason := some "Contains uppercase letters (potential proper noun)" }
    else
      let w2 := pyLower w1
      -- regex ^[a-z]+$ (full match)
      if ¬ (w2.length ≥ 1 ∧ w2.data.all (fun c => decide ('a' ≤ c ∧ c ≤ 'z'))) then
        { word := word, is_valid := false,
          reason := some "Contains non-alphabetic characters" }
      else if w2.length < 2 then
        { word := word, is_valid := false, reason := some "Too short (min 2 characters)" }
      else if w2.length > 45 then
        { word := word, is_valid := false, reason := some "Too long (max 45 characters)" }
      else
        { word := w2, is_valid := true, reason := none }

/-- A Merriam-Webster response entry, restricted to the fields read by
`_entry_matches_word`, `_is_abbreviation` and `_is_proper_noun`
(`.get` defaults are the empty string / empty list). -/
structure MWEntry where
  metaId : String
  stems : List String
  sectionTag : String
  hw : String
  fl : String
deriving Repr, DecidableEq

/-- The characters before the first `:`. -/
def beforeColon : List Char → List Char
  | [] => []
  | c :: cs => if c = ':' then [] else c :: beforeColon cs

/-- `entry_id.split(":")[0] if entry_id else ""`: the canonical identifier
with the homograph index stripped. -/
def stripHomograph (id : String) : String := String.mk (beforeColon id.data)

/-- `hw.replace("*", "")`: the headword with syllable markers removed. -/
def stripSyllableMarks (hw : String) : String :=
  String.mk (hw.data.filter (fun c => c != '*'))

/-- `MerriamWebsterAPI._entry_matches_word`. -/
def entryMatchesWord (e : MWEntry) (word : String) : Bool :=
  let wl := pyLower word
  pyLower (stripHomograph e.metaId) == wl
  || pyLower (stripSyllableMarks e.hw) == wl
  || e.stems.any (fun s => pyLower s == wl)

/-- Python `str.isupper`: at least one cased character and every cased
character upper-case (cased = alphabetic for the entries modelled here). -/
def pyIsUpper (s : String) : Bool :=
  (s.data.any (fun c => c.isAlpha)) && (s.data.all (fun c => !c.isAlpha || c.isUpper))

/-- `s[0].isupper()` guarded by non-emptiness. -/
def headIsUpper (s : String) : Bool :=
  match s.data with
  | [] => false
  | c :: _ => c.isUpper

/-- `meta.section in ("biog", "geog")`. -/
def sectionBiogGeog (e : MWEntry) : Bool :=
  e.sectionTag == "biog" || e.sectionTag == "geog"

/-- `MerriamWebsterAPI._is_abbreviation`. -/
def isAbbreviationEntry (e : MWEntry) : Bool :=
  strContains (pyLower e.fl) "abbreviation"
  || (!(stripSyllableMarks e.hw == "")
      && decide (1 < (stripSyllableMarks e.hw).length)
      && pyIsUpper (stripSyllableMarks e.hw))

/-- `MerriamWebsterAPI._is_proper_noun`. -/
def isProperNounEntry (e : MWEntry) : Bool :=
  if !(stripSyllableMarks e.hw == "") && pyIsUpper (stripSyllableMarks e.hw) then false
  else if !(stripSyllableMarks e.hw == "") && headIsUpper (stripSyllableMarks e.hw) then
    true
  else sectionBiogGeog e

/-- The classification branch of `MerriamWebsterAPI._parse_response`, applied
to an entry that already passed the match test: abbreviation check first,
then proper-noun check, otherwise a valid word. -/
def classifyEntry (e : MWEntry) : WordStatus :=
  if isAbbreviationEntry e then .abbreviation
  else if isProperNounEntry e then .properNoun
  else .valid

/-- Modelled from the spec: the classification rules as the claim words them
(C9), for the refinement comparison with `classifyEntry`.  The ProperNoun
clause is "first character upper-case and not fully upper-case, OR section
tag biographical/geographical". -/
def specClassifyClaim (e : MWEntry) : WordStatus :=
  if strContains (pyLower e.fl) "abbreviation"
      || (pyIsUpper (stripSyllableMarks e.hw)
          && decide (1 < (stripSyllableMarks e.hw).length)) then
    .abbreviation
  else if (headIsUpper (stripSyllableMarks e.hw)
        && !pyIsUpper (stripSyllableMarks e.hw))
      || sectionBiogGeog e then .properNoun
  else .valid

/-- The amended classification: as `specClassifyClaim` but a fully
upper-case headword is never a proper noun, even when the section tag is
biographical/geographical (it falls through to Valid when too short to be an
abbreviation). -/
def specClassifyAmended (e : MWEntry) : WordStatus :=
  if strContains (pyLower e.fl) "abbreviation"
      || (pyIsUpper (stripSyllableMarks e.hw)
          && decide (1 < (stripSyllableMarks e.hw).length)) then
    .abbreviation
  else if !(!(stripSyllableMarks e.hw == "") && pyIsUpper (stripSyllableMarks e.hw))
      && ((!(stripSyllableMarks e.hw == "") && headIsUpper (stripSyllableMarks e.hw))
          || sectionBiogGeog e) then .properNoun
  else .valid

/-- `WordLookupResult`, restricted to the fields the fallback chain reads
and the claims mention. -/
structure LookupResult where
  word : String
  status : WordStatus
  source : String := "unknown"
  errorMessage : Option String := none
deriving Repr, DecidableEq

/-- The lookup backends as collaborators: whether each Merriam-Webster key is
configured, and the status-level outcome of each backend's HTTP-and-parse
path when it is invoked with a configured key. -/
structure BackendEnv where
  mwKey : Bool
  medicalKey : Bool
  mwParsed : String → LookupResult
  medicalParsed : String → LookupResult
  freeLookup : String → LookupResult

/-- `MerriamWebsterAPI.lookup_word`: with no API key the lookup returns an
`error` result without issuing a request. -/
def mwLookupWord (env : BackendEnv) (word : String) : LookupResult :=
  if env.mwKey = false then
    { word := word, status := .error, errorMessage := some "API key not configured" }
  else env.mwParsed word

/-- `MerriamWebsterMedicalAPI.lookup_word`: with no API key the lookup
returns a `notFound` result (the client additionally skips the call via
`is_configured`). -/
def medicalLookupWord (env : BackendEnv) (word : String) : LookupResult :=
  if env.medicalKey = false then
    { word := word, status := .notFound,
      errorMessage := some "Medical API key not configured" }
  else env.medicalParsed word

/-- `DictionaryAPIClient.lookup_word`: Collegiate first; Medical only when
Collegiate reported `notFound` and the Medical key is configured, returned
only when it reports `valid`; Free Dictionary only when the Collegiate
result is still `notFound`. -/
def clientLookupWord (env : BackendEnv) (word : String)
    (useFallback useMedical : Bool) : LookupResult :=
  let result := mwLookupWord env word
  let medicalHit : Option LookupResult :=
    if useMedical = true ∧ result.status = .notFound ∧ env.medicalKey = true then
      let m := medicalLookupWord env word
      if m.status = .valid then some m else none
    else none
  match medicalHit with
  | some m => m
  | none =>
    if useFallback = true ∧ result.status = .notFound then env.freeLookup word
    else result

/-- `ProgressState`: the persisted checkpoint
(`validation_progress.json`). -/
structure ProgressState where
  validated_count : Nat
  promoted_count : Nat
  last_run : Option String
  validated_words : List String
deriving Repr, DecidableEq

/-- `load_progress` when no checkpoint file exists (also the state after
`reset()`). -/
def zeroProgress : ProgressState :=
  { validated_count := 0, promoted_count := 0, last_run := none, validated_words := [] }

/-- `InvalidListValidator.load_invalid_words`: the corpus minus the words
already recorded in the checkpoint (`allWords` stands for the stripped,
non-blank lines of the invalid-words file). -/
def loadInvalidWords (allWords : List String) (p : ProgressState) : List String :=
  allWords.filter (fun w => decide (w ∉ p.validated_words))

/-- The `results` dictionary of `run_daily_validation`; `Option` fields are
the keys present only on one of the two return paths (wall-clock fields
elided). -/
structure RunReport where
  success : Bool
  validated : Nat
  promoted : Nat
  promoted_words : List String
  message : Option String
  still_invalid : Option Nat
  total_validated : Option Nat
  total_promoted : Option Nat
  remaining : Option Nat
deriving Repr, DecidableEq

instance exceptDecEq {ε α : Type} [DecidableEq ε] [DecidableEq α] :
    DecidableEq (Except ε α) := fun a b =>
  match a, b with
  | .error e1, .error e2 =>
    if h : e1 = e2 then isTrue (by rw [h]) else isFalse (by intro hc; cases hc; exact h rfl)
  | .ok v1, .ok v2 =>
    if h : v1 = v2 then isTrue (by rw [h]) else isFalse (by intro hc; cases hc; exact h rfl)
  | .error _, .ok _ => isFalse (by intro hc; cases hc)
  | .ok _, .error _ => isFalse (by intro hc; cases hc)

/-- One invocation's observable outcome: the words selected as candidates,
the checkpoint state on disk afterwards, the sequence of checkpoint writes
performed (in order), and the returned report or the exception raised. -/
structure RunOutcome where
  selection : List String
  persisted : ProgressState
  saves : List ProgressState
  report : Except String RunReport
deriving Repr, DecidableEq

/-- `InvalidListValidator.validate_batch`: rule-check each word, look up the
survivors, partition into promoted and still-invalid (order preserved). -/
def validateBatch (lookup : String → WordStatus) (words : List String) :
    List String × List String :=
  words.foldl
    (fun acc w =>
      if (wvValidate w).is_valid then
        match lookup w with
        | WordStatus.valid => (acc.1 ++ [w], acc.2)
        | _ => (acc.1, acc.2 ++ [w])
      else (acc.1, acc.2 ++ [w]))
    ([], [])

/-- Fuel-indexed batch splitting; the fuel (the list length) dominates the
number of batches whenever `n ≥ 1`. -/
def chunkListAux (n : Nat) : Nat → List String → List (List String)
  | _, [] => []
  | 0, _ :: _ => []
  | fuel + 1, x :: xs =>
    if n = 0 then []
    else (x :: xs).take n :: chunkListAux n fuel ((x :: xs).drop n)

/-- The batch split `candidates[i:i + VALIDATION_BATCH_SIZE]` for
`i in range(0, len(candidates), n)`; `n = 0` cannot occur
(`VALIDATION_BATCH_SIZE = 50`). -/
def chunkList (n : Nat) (l : List String) : List (List String) :=
  chunkListAux n l.length l

/-- `VALIDATION_BATCH_SIZE` from `config.py`. -/
def validationBatchSize : Nat := 50

/-- Candidate selection inside `run_daily_validation`, on the already-loaded
remaining corpus: `random.sample` in sample mode, the prioritizer otherwise. -/
def selectCandidates (r : RandomSource) (invalidWords : List String) (limit : Nat)
    (sampleMode : Bool) : Except String (List String) :=
  if sampleMode then .ok (r.sample invalidWords (min limit invalidWords.length))
  else
    match prioritizeWords r invalidWords limit with
    | .error e => .error e
    | .ok cs => .ok (cs.map CandidateWord.word)

/-- `InvalidListValidator.run_daily_validation`.  The checkpoint is written
once, after all batches (`save_progress` at the end of the batch loop); the
promotion-rate logging line divides by the number of validated words and
raises `ZeroDivisionError` when zero candidates were selected (after the
checkpoint write). -/
def runDailyValidation (r : RandomSource) (lookup : String → WordStatus)
    (allWords : List String) (p0 : ProgressState) (limit : Nat)
    (sampleMode : Bool) (now : String) : RunOutcome :=
  let invalidWords := loadInvalidWords allWords p0
  if invalidWords.isEmpty then
    { selection := [], persisted := p0, saves := [],
      report := .ok
        { success := true, validated := 0, promoted := 0, promoted_words := [],
          message := some "No invalid words file found or all words already validated",
          still_invalid := none, total_validated := none, total_promoted := none,
          remaining := none } }
  else
    match selectCandidates r invalidWords limit sampleMode with
    | .error e => { selection := [], persisted := p0, saves := [], report := .error e }
    | .ok candidates =>
      let vb := (chunkList validationBatchSize candidates).foldl
        (fun (acc : List String × List String) batch =>
          let b := validateBatch lookup batch
          (acc.1 ++ b.1, acc.2 ++ b.2))
        ([], [])
      let p1 : ProgressState :=
        { validated_count := p0.validated_count + candidates.length,
          promoted_count := p0.promoted_count + vb.1.length,
          last_run := some now,
          validated_words := p0.validated_words ++ candidates }
      if candidates.length = 0 then
        { selection := candidates, persisted := p1, saves := [p1],
          report := .error "ZeroDivisionError" }
      else
        { selection := candidates, persisted := p1, saves := [p1],
          report := .ok
            { success := true, validated := candidates.length,
              promoted := vb.1.length, promoted_words := vb.1, message := none,
              still_invalid := some vb.2.length,
              total_validated := some (p0.validated_count + candidates.length),
              total_promoted := some (p0.promoted_count + vb.1.length),
              remaining := some (invalidWords.length - candidates.length) } }

/-- The subset of a run's selection that reaches the dictionary lookup: the
rule-accepted candidates (`validate_batch` skips the lookup for
rule-rejected words). -/
def lookedUpWords (selection : List String) : List String :=
  selection.filter (fun w => (wvValidate w).is_valid)

/-- The entry with identifier "mind:1" from the claim's first matching
example. -/
def mindEntryHomograph : MWEntry :=
  { metaId := "mind:1", stems := ["mind", "minded", "minding", "minds"],
    sectionTag := "", hw := "mind", fl := "noun" }

/-- A "mind"-derived entry without homograph index, for the "noher"
non-matching example. -/
def mindEntryPlain : MWEntry :=
  { metaId := "mind", stems := ["mind", "minded", "minding", "minds"],
    sectionTag := "", hw := "mind", fl := "noun" }

/-- The "mind"-derived entry with "noher" added to the stems list. -/
def mindEntryWithNoher : MWEntry :=
  { metaId := "mind", stems := ["mind", "minded", "minding", "minds", "noher"],
    sectionTag := "", hw := "mind", fl := "noun" }

/-- The fully upper-case single-character headword with a biographical
section tag: the entry on which the claimed ProperNoun rule and the code
disagree. -/
def biogSingleLetterEntry : MWEntry :=
  { metaId := "a", stems := [], sectionTag := "biog", hw := "A", fl := "noun" }

/-- The "NASA" example entry (all-caps headword, length > 1). -/
def nasaEntry : MWEntry :=
  { metaId := "NASA", stems := ["NASA"], sectionTag := "", hw := "NASA", fl := "" }

/-- The "Paris" example entry (capitalized headword). -/
def parisEntry : MWEntry :=
  { metaId := "Paris", stems := ["Paris"], sectionTag := "geog", hw := "Paris",
    fl := "geographical name" }

/-- The "mind" example entry (functional label "noun"). -/
def mindClassEntry : MWEntry :=
  { metaId := "mind:1", stems := ["mind"], sectionTag := "", hw := "mind", fl := "noun" }

/-- Backend environment with a missing Collegiate API key and a fallback
that would succeed. -/
def chainEnvNoKey : BackendEnv :=
  { mwKey := false, medicalKey := true,
    mwParsed := fun w => { word := w, status := .valid, source := "merriam-webster" },
    medicalParsed := fun w =>
      { word := w, status := .valid, source := "merriam-webster-medical" },
    freeLookup := fun w => { word := w, status := .valid, source := "free-dictionary" } }

/-- Backend environment where Collegiate reports not-found, the Medical
backend reports an error, and the free dictionary would succeed. -/
def chainEnvMedError : BackendEnv :=
  { mwKey := true, medicalKey := true,
    mwParsed := fun w => { word := w, status := .notFound, source := "merriam-webster" },
    medicalParsed := fun w =>
      { word := w, status := .error, source := "merriam-webster-medical",
        errorMessage := some "HTTP 500" },
    freeLookup := fun w => { word := w, status := .valid, source := "free-dictionary" } }

/-- Fifty-one distinct corpus words, so that a run with `limit = 51` selects
fifty-one candidates and splits them into two batches of
`VALIDATION_BATCH_SIZE = 50` and 1. -/
def corpus51 : List String :=
  (List.range 51).map (fun i => String.mk (List.replicate (i + 1) 'a'))

/-- The candidate produced by `score_word` for "mind". -/
def mindCand : CandidateWord :=
  { word := "mind", score := 95,
    reasons := ["short word (4 chars)", "good vowel balance",
                "common starting letter", "good letter diversity"] }

/-! ### Supporting lemmas -/

theorem scoreWord_ok_of_ne_nil {w : String} (h : w.data ≠ []) :
    ∃ c, scoreWord w = .ok c ∧ c.word = w ∧ 0 ≤ c.score ∧ c.score ≤ 100 := by
  cases hd : w.data with
  | nil => exact absurd hd h
  | cons a as =>
    simp only [scoreWord, hd]
    exact ⟨_, rfl, rfl, le_max_left 0 _, max_le (by norm_num) (min_le_left _ _)⟩

theorem scoreWord_ok_word {w : String} {c : CandidateWord}
    (h : scoreWord w = .ok c) : c.word = w := by
  by_cases hd : w.data = []
  · simp only [scoreWord, hd] at h
    exact Except.noConfusion h
  · obtain ⟨c', hc', hw', _, _⟩ := scoreWord_ok_of_ne_nil hd
    rw [hc'] at h
    cases h
    exact hw'

theorem mapScoreWord_words {l : List String} {cs : List CandidateWord}
    (h : mapScoreWord l = .ok cs) : cs.map CandidateWord.word = l := by
  induction l generalizing cs with
  | nil => cases h; rfl
  | cons w ws ih =>
    rw [mapScoreWord] at h
    cases hw : scoreWord w with
    | error e => rw [hw] at h; cases h
    | ok c =>
      rw [hw] at h
      cases hws : mapScoreWord ws with
      | error e => rw [hws] at h; cases h
      | ok cs' =>
        rw [hws] at h
        cases h
        simp [ih hws, scoreWord_ok_word hw]

theorem mapScoreWord_ok_of_ne_nil {l : List String} (h : ∀ w ∈ l, w.data ≠ []) :
    ∃ cs, mapScoreWord l = .ok cs := by
  induction l with
  | nil => exact ⟨[], rfl⟩
  | cons w ws ih =>
    obtain ⟨c, hc, -, -, -⟩ := scoreWord_ok_of_ne_nil (h w (List.mem_cons_self w ws))
    obtain ⟨cs, hcs⟩ := ih (fun x hx => h x (List.mem_cons_of_mem _ hx))
    exact ⟨c :: cs, by rw [mapScoreWord, hc, hcs]⟩

theorem tierFold_mem {r : RandomSource} {cands : List CandidateWord} {limit : Nat}
    (hsh : ∀ xs, List.Perm (r.shuffleCands xs) xs) :
    ∀ ts acc c, c ∈ tierFold r cands limit ts acc → c ∈ acc ∨ c ∈ cands := by
  intro ts
  induction ts with
  | nil => intro acc c hc; exact Or.inl hc
  | cons t ts ih =>
    intro acc c hc
    rw [tierFold] at hc
    by_cases hg : (cands.filter (fun c => tierOf c == t)).isEmpty
    · rw [if_pos hg] at hc
      exact ih acc c hc
    · rw [if_neg hg] at hc
      rcases ih _ c hc with h | h
      · rcases List.mem_append.mp h with h' | h'
        · exact Or.inl h'
        · refine Or.inr ?_
          have hmem : c ∈ r.shuffleCands (cands.filter (fun c => tierOf c == t)) :=
            (List.take_sublist _ _).subset h'
          exact (List.mem_filter.mp ((hsh _).mem_iff.mp hmem)).1
      · exact Or.inr h

theorem tierFold_length {r : RandomSource} {cands : List CandidateWord} {limit : Nat} :
    ∀ ts acc, acc.length ≤ limit → (tierFold r cands limit ts acc).length ≤ limit := by
  intro ts
  induction ts with
  | nil => intro acc h; exact h
  | cons t ts ih =>
    intro acc h
    rw [tierFold]
    by_cases hg : (cands.filter (fun c => tierOf c == t)).isEmpty
    · rw [if_pos hg]; exact ih acc h
    · rw [if_neg hg]
      refine ih _ ?_
      rw [List.length_append, List.length_take]
      omega

theorem tierFold_map_nodup {r : RandomSource} {cands : List CandidateWord} {limit : Nat}
    (hsh : ∀ xs, List.Perm (r.shuffleCands xs) xs)
    (hcn : (cands.map CandidateWord.word).Nodup) :
    ∀ ts acc, ts.Nodup →
      (acc.map CandidateWord.word).Nodup →
      (∀ c ∈ acc, c ∈ cands) →
      (∀ c ∈ acc, tierOf c ∉ ts) →
      ((tierFold r cands limit ts acc).map CandidateWord.word).Nodup := by
  have hinj : ∀ a ∈ cands, ∀ b ∈ cands, a.word = b.word → a = b := by
    intro a ha b hb hab
    exact List.inj_on_of_nodup_map hcn ha hb hab
  have hcands : cands.Nodup := hcn.of_map
  intro ts
  induction ts with
  | nil => intro acc _ ha _ _; exact ha
  | cons t ts ih =>
    intro acc hts ha hmem htier
    rw [tierFold]
    by_cases hg : (cands.filter (fun c => tierOf c == t)).isEmpty
    · rw [if_pos hg]
      exact ih acc (List.nodup_cons.mp hts).2 ha hmem
        (fun c hc hin => htier c hc (List.mem_cons_of_mem _ hin))
    · rw [if_neg hg]
      have hblk_sub : ∀ c ∈ (r.shuffleCands (cands.filter (fun c => tierOf c == t))).take
          (limit - acc.length), c ∈ cands.filter (fun c => tierOf c == t) := by
        intro c hc
        exact (hsh _).mem_iff.mp ((List.take_sublist _ _).subset hc)
      have hblk_cands : ∀ c ∈ (r.shuffleCands (cands.filter (fun c => tierOf c == t))).take
          (limit - acc.length), c ∈ cands :=
        fun c hc => (List.mem_filter.mp (hblk_sub c hc)).1
      have hblk_tier : ∀ c ∈ (r.shuffleCands (cands.filter (fun c => tierOf c == t))).take
          (limit - acc.length), tierOf c = t := by
        intro c hc
        have := (List.mem_filter.mp (hblk_sub c hc)).2
        exact by simpa using this
      have hblk_nodup : ((r.shuffleCands (cands.filter (fun c => tierOf c == t))).take
          (limit - acc.length)).Nodup := by
        refine List.Nodup.sublist (List.take_sublist _ _) ?_
        exact ((hsh _).nodup_iff).mpr (hcands.filter _)
      refine ih _ (List.nodup_cons.mp hts).2 ?_ ?_ ?_
      · rw [List.map_append, List.nodup_append]
        refine ⟨ha, ?_, ?_⟩
        · exact List.Nodup.map_on
            (fun a haa b hbb hab =>
              hinj a (hblk_cands a haa) b (hblk_cands b hbb) hab) hblk_nodup
        · intro x hx hx'
          obtain ⟨a, haa, rfl⟩ := List.mem_map.mp hx
          obtain ⟨b, hbb, hw⟩ := List.mem_map.mp hx'
          have hab : a = b := hinj a (hmem a haa) b (hblk_cands b hbb) hw.symm
          refine htier a haa ?_
          rw [hab, hblk_tier b hbb]
          exact List.mem_cons_self t ts
      · intro c hc
        rcases List.mem_append.mp hc with h' | h'
        · exact hmem c h'
        · exact hblk_cands c h'
      · intro c hc
        rcases List.mem_append.mp hc with h' | h'
        · exact fun hin => htier c h' (List.mem_cons_of_mem _ hin)
        · rw [hblk_tier c h']
          exact (List.nodup_cons.mp hts).1

theorem sampledPool_mem {r : RandomSource} {words : List String} {limit : Nat}
    (hsmem : ∀ xs k a, a ∈ r.sample xs k → a ∈ xs) :
    ∀ a ∈ sampledPool r words limit, a ∈ words ∧ isLikelyEnglish a = true := by
  intro a ha
  rw [sampledPool] at ha
  split at ha
  · have := hsmem _ _ _ ha
    simpa [likelyEnglishOf, List.mem_filter] using this
  · simpa [likelyEnglishOf, List.mem_filter] using ha

theorem sampledPool_nodup {r : RandomSource} {words : List String} {limit : Nat}
    (hsnodup : ∀ xs k, xs.Nodup → (r.sample xs k).Nodup)
    (hwn : words.Nodup) : (sampledPool r words limit).Nodup := by
  rw [sampledPool]
  split
  · exact hsnodup _ _ (hwn.filter _)
  · exact hwn.filter _

theorem prioritizeWords_ok_mem {r : RandomSource} {words : List String} {limit : Nat}
    {cs : List CandidateWord}
    (hsmem : ∀ xs k a, a ∈ r.sample xs k → a ∈ xs)
    (hsh : ∀ xs, List.Perm (r.shuffleCands xs) xs)
    (h : prioritizeWords r words limit = .ok cs) :
    ∀ c ∈ cs, c.word ∈ words ∧ isLikelyEnglish c.word = true := by
  intro c hc
  rw [prioritizeWords] at h
  split at h
  · exact Except.noConfusion h
  · cases hm : mapScoreWord (sampledPool r words limit) with
    | error e => rw [hm] at h; exact Except.noConfusion h
    | ok cands =>
      simp only [hm] at h
      split at h
      · exact Except.noConfusion h
      · cases h
        rcases tierFold_mem hsh tierVals [] c hc with h' | h'
        · cases h'
        · have : c.word ∈ cands.map CandidateWord.word := List.mem_map_of_mem _ h'
          rw [mapScoreWord_words hm] at this
          exact sampledPool_mem hsmem c.word this

theorem prioritizeWords_ok_nodup {r : RandomSource} {words : List String} {limit : Nat}
    {cs : List CandidateWord}
    (hsnodup : ∀ xs k, xs.Nodup → (r.sample xs k).Nodup)
    (hsh : ∀ xs, List.Perm (r.shuffleCands xs) xs)
    (hwn : words.Nodup)
    (h : prioritizeWords r words limit = .ok cs) :
    (cs.map CandidateWord.word).Nodup := by
  rw [prioritizeWords] at h
  split at h
  · exact Except.noConfusion h
  · cases hm : mapScoreWord (sampledPool r words limit) with
    | error e => rw [hm] at h; exact Except.noConfusion h
    | ok cands =>
      simp only [hm] at h
      split at h
      · exact Except.noConfusion h
      · cases h
        have hcn : (cands.map CandidateWord.word).Nodup := by
          rw [mapScoreWord_words hm]
          exact sampledPool_nodup hsnodup hwn
        refine tierFold_map_nodup hsh hcn tierVals [] ?_ ?_ ?_ ?_
        · decide
        · exact List.nodup_nil
        · intro c hc; cases hc
        · intro c hc; cases hc

theorem mem_loadInvalidWords {allWords : List String} {p : ProgressState} {w : String} :
    w ∈ loadInvalidWords allWords p ↔ w ∈ allWords ∧ w ∉ p.validated_words := by
  simp [loadInvalidWords]

theorem loadInvalidWords_nodup {allWords : List String} {p : ProgressState}
    (h : allWords.Nodup) : (loadInvalidWords allWords p).Nodup :=
  h.filter _

theorem selectCandidates_ok_mem {r : RandomSource} {invalidWords : List String}
    {limit : Nat} {m : Bool} {cs : List String}
    (hsmem : ∀ xs k a, a ∈ r.sample xs k → a ∈ xs)
    (hsh : ∀ xs, List.Perm (r.shuffleCands xs) xs)
    (h : selectCandidates r invalidWords limit m = .ok cs) :
    ∀ w ∈ cs, w ∈ invalidWords := by
  intro w hw
  rw [selectCandidates] at h
  split at h
  · cases h
    exact hsmem _ _ _ hw
  · cases hp : prioritizeWords r invalidWords limit with
    | error e => rw [hp] at h; exact Except.noConfusion h
    | ok cs' =>
      rw [hp] at h
      cases h
      obtain ⟨c, hc, rfl⟩ := List.mem_map.mp hw
      exact (prioritizeWords_ok_mem hsmem hsh hp c hc).1

theorem selectCandidates_ok_nodup {r : RandomSource} {invalidWords : List String}
    {limit : Nat} {m : Bool} {cs : List String}
    (hsnodup : ∀ xs k, xs.Nodup → (r.sample xs k).Nodup)
    (hsh : ∀ xs, List.Perm (r.shuffleCands xs) xs)
    (hn : invalidWords.Nodup)
    (h : selectCandidates r invalidWords limit m = .ok cs) : cs.Nodup := by
  rw [selectCandidates] at h
  split at h
  · cases h
    exact hsnodup _ _ hn
  · cases hp : prioritizeWords r invalidWords limit with
    | error e => rw [hp] at h; exact Except.noConfusion h
    | ok cs' =>
      rw [hp] at h
      cases h
      exact prioritizeWords_ok_nodup hsnodup hsh hn hp

theorem runDaily_selection_sub {r : RandomSource} {lookup : String → WordStatus}
    {allWords : List String} {p0 : ProgressState} {limit : Nat} {m : Bool} {now : String}
    (hsmem : ∀ xs k a, a ∈ r.sample xs k → a ∈ xs)
    (hsh : ∀ xs, List.Perm (r.shuffleCands xs) xs) :
    ∀ w ∈ (runDailyValidation r lookup allWords p0 limit m now).selection,
      w ∈ loadInvalidWords allWords p0 := by
  intro w hw
  rw [runDailyValidation] at hw
  split at hw
  · cases hw
  · rename_i hne
    cases hc : selectCandidates r (loadInvalidWords allWords p0) limit m with
    | error e => rw [hc] at hw; cases hw
    | ok candidates =>
      simp only [hc] at hw
      split at hw
      all_goals exact selectCandidates_ok_mem hsmem hsh hc w hw

theorem isLikelyEnglish_ne_nil {w : String} (h : isLikelyEnglish w = true) :
    w.data ≠ [] := by
  intro hnil
  rw [isLikelyEnglish] at h
  rw [hnil] at h
  simp at h

/-! ### Claim theorems -/

/-- C10: under the precondition that the input word is non-empty, `score_word`
is total — the `word[0]` access is in bounds and the returned candidate's
score lies in [0, 100] after the final clamp; on the empty string it instead
raises `IndexError` at the first-letter-frequency check. -/
theorem scoreWord_total_and_clamped :
    (∀ w : String, w.data ≠ [] →
      ∀ c, scoreWord w = .ok c → 0 ≤ c.score ∧ c.score ≤ 100)
    ∧ (∀ w : String, w.data ≠ [] → (scoreWord w).isOk = true)
    ∧ scoreWord "" = .error "IndexError" := by
  refine ⟨?_, ?_, rfl⟩
  · intro w hw c hc
    obtain ⟨c', hc', -, h0, h100⟩ := scoreWord_ok_of_ne_nil hw
    rw [hc'] at hc
    cases hc
    exact ⟨h0, h100⟩
  · intro w hw
    obtain ⟨c', hc', -, -, -⟩ := scoreWord_ok_of_ne_nil hw
    rw [hc']
    rfl

/-- Witness for C10 at the concrete word "mind". -/
theorem scoreWord_total_and_clamped_witness :
    (scoreWord "mind").isOk = true
    ∧ (0 ≤ (95 : Int) ∧ (95 : Int) ≤ 100) :=
  ⟨scoreWord_total_and_clamped.2.1 "mind" (by decide),
   scoreWord_total_and_clamped.1 "mind" (by decide)
     { word := "mind", score := 95,
       reasons := ["short word (4 chars)", "good vowel balance",
                   "common starting letter", "good letter diversity"] } (by decide)⟩

/-- C8: the match test succeeds iff the entry's `meta.id` with the trailing
homograph index stripped, its headword with syllable markers stripped, or an
exact element of its stems list equals the queried word case-insensitively —
no partial or fuzzy matching; in particular id "mind:1" matches "mind", and
"noher" does not match a "mind"-derived entry unless "noher" itself is a
stem. -/
theorem entry_match_exact_iff :
    (∀ (e : MWEntry) (w : String),
      entryMatchesWord e w = true ↔
        (pyLower (stripHomograph e.metaId) = pyLower w
          ∨ pyLower (stripSyllableMarks e.hw) = pyLower w
          ∨ ∃ s ∈ e.stems, pyLower s = pyLower w))
    ∧ entryMatchesWord mindEntryHomograph "mind" = true
    ∧ entryMatchesWord mindEntryPlain "noher" = false
    ∧ entryMatchesWord mindEntryWithNoher "noher" = true := by
  refine ⟨?_, by decide, by decide, by decide⟩
  intro e w
  simp [entryMatchesWord, List.any_eq_true, or_assoc]

/-- C9 counterexample: on a matched entry whose cleaned headword is the
single upper-case character "A" and whose section tag is "biog", the code
classifies `Valid` (the fully-upper-case check returns early from the
proper-noun test before the section tag is consulted), while the claim's
rule classifies `ProperNoun` via the section tag. -/
theorem classify_claim_counterexample :
    classifyEntry biogSingleLetterEntry = WordStatus.valid
    ∧ specClassifyClaim biogSingleLetterEntry = WordStatus.properNoun
    ∧ classifyEntry biogSingleLetterEntry ≠ specClassifyClaim biogSingleLetterEntry := by
  decide

/-- C9 amended: classification applies in precedence order — Abbreviation if
the functional label contains "abbreviation" or the cleaned headword is
fully upper-case and longer than one character; otherwise ProperNoun if the
cleaned headword is NOT fully upper-case (in particular when it is empty)
and either its first character is upper-case or the section tag is
"biog"/"geog" (a fully upper-case headword is never ProperNoun, even with a
biog/geog section tag); otherwise Valid.  NASA → Abbreviation, Paris →
ProperNoun, mind/"noun" → Valid. -/
theorem classify_entry_amended :
    (∀ e : MWEntry, classifyEntry e = specClassifyAmended e)
    ∧ classifyEntry nasaEntry = WordStatus.abbreviation
    ∧ classifyEntry parisEntry = WordStatus.properNoun
    ∧ classifyEntry mindClassEntry = WordStatus.valid := by
  refine ⟨?_, by decide, by decide, by decide⟩
  intro e
  rw [classifyEntry, specClassifyAmended, isProperNounEntry, isAbbreviationEntry]
  cases hA : strContains (pyLower e.fl) "abbreviation" with
  | true => simp [hA]
  | false =>
    cases hE : (stripSyllableMarks e.hw == "") with
    | true =>
      have hU : pyIsUpper (stripSyllableMarks e.hw) = false := by
        rw [eq_of_beq hE]; rfl
      simp [hA, hE, hU]
    | false =>
      cases hU : pyIsUpper (stripSyllableMarks e.hw) with
      | true =>
        cases hL : decide (1 < (stripSyllableMarks e.hw).length) with
        | true => simp [hA, hE, hU, hL]
        | false => simp [hA, hE, hU, hL]
      | false =>
        cases hH : headIsUpper (stripSyllableMarks e.hw) with
        | true => simp [hA, hE, hU, hH]
        | false => simp [hA, hE, hU, hH]

/-- C4 counterexample: when the primary (Collegiate) backend yields an
`Error` result — here, missing credentials — the unified lookup returns that
failure as the final result of the whole lookup instead of advancing to the
next backend, although the free dictionary would have returned `Valid`. -/
theorem chain_error_not_advanced :
    (clientLookupWord chainEnvNoKey "mind" true true).status = WordStatus.error
    ∧ (chainEnvNoKey.freeLookup "mind").status = WordStatus.valid
    ∧ clientLookupWord chainEnvNoKey "mind" true true
        = { word := "mind", status := WordStatus.error, source := "unknown",
            errorMessage := some "API key not configured" } :=
  ⟨rfl, rfl, rfl⟩

/-- C4 amended: the chain advances only when the current Collegiate result
is `NotFound`.  A Collegiate `Error` (persistent failure or missing
credentials) is returned as the whole lookup's result without consulting the
other backends.  After a Collegiate `NotFound`, a configured Medical backend
that reports `Valid` short-circuits; any non-`Valid` Medical outcome
(including `Error` or missing Medical credentials) is skipped and the free
dictionary is consulted. -/
theorem chain_advances_only_on_notFound (env : BackendEnv) (word : String)
    (uf um : Bool) :
    ((mwLookupWord env word).status ≠ .notFound →
        clientLookupWord env word uf um = mwLookupWord env word)
    ∧ ((mwLookupWord env word).status = .notFound → um = true →
        env.medicalKey = true → (medicalLookupWord env word).status = .valid →
        clientLookupWord env word uf um = medicalLookupWord env word)
    ∧ ((mwLookupWord env word).status = .notFound →
        (medicalLookupWord env word).status ≠ .valid → uf = true →
        clientLookupWord env word uf um = env.freeLookup word) := by
  refine ⟨?_, ?_, ?_⟩
  · intro h
    simp [clientLookupWord, h]
  · intro h hum hkey hm
    simp [clientLookupWord, h, hum, hkey, hm]
  · intro h hm huf
    simp [clientLookupWord, h, hm, huf]

/-- Witness for C4 amended: after a Collegiate `NotFound`, a Medical `Error`
is skipped and the free dictionary's answer is the final result. -/
theorem chain_advances_only_on_notFound_witness :
    clientLookupWord chainEnvMedError "mind" true true
      = chainEnvMedError.freeLookup "mind" :=
  (chain_advances_only_on_notFound chainEnvMedError "mind" true true).2.2
    (by decide) (by decide) rfl

/-- C3: on the corpus ["qqqqq"] (non-empty, but no word passes the Stage A
pre-filter) a priority-mode run raises `ValueError` — at
`min(tiers.keys())` in `prioritize_words`' summary logging — instead of
returning a success report, and no checkpoint write occurs. -/
theorem run_stage_a_empty_raises :
    runDailyValidation cRand (fun _ => WordStatus.valid) ["qqqqq"] zeroProgress
        2 false "t"
      = { selection := [], persisted := zeroProgress, saves := [],
          report := .error "ValueError" } := by
  decide

/-- C5 counterexample: a sample-mode run over fifty-one words splits its
selection into two fixed-size batches but performs exactly one checkpoint
write, not one write per completed batch. -/
theorem run_two_batches_one_write :
    (chunkList validationBatchSize
        (runDailyValidation cRand (fun _ => WordStatus.valid) corpus51 zeroProgress
          51 true "t").selection).length = 2
    ∧ (runDailyValidation cRand (fun _ => WordStatus.valid) corpus51 zeroProgress
        51 true "t").saves.length = 1 := by
  constructor
  · decide
  · decide

/-- C5 amended: the checkpoint is updated and persisted exactly once per
run, after all batches complete — either no write happens (nothing to
validate, or the selection step raised) and the persisted state is the prior
one, or the single write is the final persisted state incorporating every
batch of the run. -/
theorem run_checkpoint_written_once_per_run (r : RandomSource)
    (lookup : String → WordStatus) (allWords : List String) (p0 : ProgressState)
    (limit : Nat) (m : Bool) (now : String) :
    ((runDailyValidation r lookup allWords p0 limit m now).saves = []
      ∧ (runDailyValidation r lookup allWords p0 limit m now).persisted = p0)
    ∨ (runDailyValidation r lookup allWords p0 limit m now).saves
        = [(runDailyValidation r lookup allWords p0 limit m now).persisted] := by
  simp only [runDailyValidation]
  split
  · simp
  · cases hc : selectCandidates r (loadInvalidWords allWords p0) limit m with
    | error e => simp [hc]
    | ok candidates =>
      simp only [hc]
      split
      · simp
      · simp

/-- C1: running the validation twice in succession with no reset never
re-validates a word resolved in the first run — `load_invalid_words` removes
every word of the persisted `validated_words` from the candidate pool, so no
word recorded by the first run is selected (hence neither rule-checked nor
looked up) by the second run. -/
theorem second_run_excludes_resolved_words
    (r1 r2 : RandomSource) (lookup1 lookup2 : String → WordStatus)
    (allWords : List String) (p0 : ProgressState) (limit1 limit2 : Nat)
    (m1 m2 : Bool) (now1 now2 : String) (w : String)
    (hsmem : ∀ xs k a, a ∈ r2.sample xs k → a ∈ xs)
    (hsh : ∀ xs, List.Perm (r2.shuffleCands xs) xs)
    (hw : w ∈ ((runDailyValidation r1 lookup1 allWords p0 limit1 m1
        now1).persisted).validated_words) :
    w ∉ (runDailyValidation r2 lookup2 allWords
        (runDailyValidation r1 lookup1 allWords p0 limit1 m1 now1).persisted
        limit2 m2 now2).selection
    ∧ w ∉ lookedUpWords ((runDailyValidation r2 lookup2 allWords
        (runDailyValidation r1 lookup1 allWords p0 limit1 m1 now1).persisted
        limit2 m2 now2).selection) := by
  have hnot : w ∉ (runDailyValidation r2 lookup2 allWords
      (runDailyValidation r1 lookup1 allWords p0 limit1 m1 now1).persisted
      limit2 m2 now2).selection := by
    intro hin
    have hpool := runDaily_selection_sub hsmem hsh w hin
    exact (mem_loadInvalidWords.mp hpool).2 hw
  exact ⟨hnot, fun hin => hnot (List.mem_of_mem_filter hin)⟩

/-- Witness for C1: after a first run resolves "mind", a second run over the
same corpus selects nothing containing "mind". -/
theorem second_run_excludes_resolved_words_witness :
    "mind" ∈ ((runDailyValidation cRand (fun _ => WordStatus.valid) ["mind"]
        zeroProgress 5 false "t").persisted).validated_words
    ∧ "mind" ∉ (runDailyValidation cRand (fun _ => WordStatus.valid) ["mind"]
        (runDailyValidation cRand (fun _ => WordStatus.valid) ["mind"]
          zeroProgress 5 false "t").persisted 5 false "u").selection :=
  ⟨by decide,
   (second_run_excludes_resolved_words cRand cRand (fun _ => WordStatus.valid)
      (fun _ => WordStatus.valid) ["mind"] zeroProgress 5 5 false false "t" "u" "mind"
      (fun xs k a h => (List.take_sublist k xs).subset h)
      (fun xs => List.Perm.refl xs) (by decide)).1⟩

/-- C6 counterexample: on a corpus containing a duplicated word, a run
appends the duplicated selection to the checkpoint, so `validated_words`
afterwards contains duplicate entries. -/
theorem run_duplicate_corpus_breaks_nodup :
    (runDailyValidation cRand (fun _ => WordStatus.valid) ["mind", "mind"]
        zeroProgress 2 false "t").persisted.validated_words = ["mind", "mind"]
    ∧ ¬ ((runDailyValidation cRand (fun _ => WordStatus.valid) ["mind", "mind"]
        zeroProgress 2 false "t").persisted.validated_words).Nodup := by
  constructor
  · decide
  · decide

/-- C6 amended: for a duplicate-free corpus and a duplicate-free prior
checkpoint, after any run the persisted `validated_words` is a superset of
the prior one with no duplicate entries, `validated_count` and
`promoted_count` never decrease, and when a report is returned the increase
of `promoted_count` equals the number of words promoted in that run. -/
theorem run_progress_monotone
    (r : RandomSource) (lookup : String → WordStatus) (allWords : List String)
    (p0 : ProgressState) (limit : Nat) (m : Bool) (now : String)
    (hsmem : ∀ xs k a, a ∈ r.sample xs k → a ∈ xs)
    (hsnodup : ∀ xs k, xs.Nodup → (r.sample xs k).Nodup)
    (hsh : ∀ xs, List.Perm (r.shuffleCands xs) xs)
    (haw : allWords.Nodup) (hp0 : p0.validated_words.Nodup) :
    (∀ w ∈ p0.validated_words,
      w ∈ (runDailyValidation r lookup allWords p0 limit m now).persisted.validated_words)
    ∧ ((runDailyValidation r lookup allWords p0 limit m
        now).persisted.validated_words).Nodup
    ∧ p0.validated_count
        ≤ (runDailyValidation r lookup allWords p0 limit m now).persisted.validated_count
    ∧ p0.promoted_count
        ≤ (runDailyValidation r lookup allWords p0 limit m now).persisted.promoted_count
    ∧ (∀ rep, (runDailyValidation r lookup allWords p0 limit m now).report = .ok rep →
        (runDailyValidation r lookup allWords p0 limit m now).persisted.promoted_count
          - p0.promoted_count = rep.promoted_words.length) := by
  simp only [runDailyValidation]
  split
  · refine ⟨fun w hw => hw, hp0, le_refl _, le_refl _, ?_⟩
    intro rep hrep
    cases hrep
    simp
  · cases hc : selectCandidates r (loadInvalidWords allWords p0) limit m with
    | error e =>
      simp only [hc]
      refine ⟨fun w hw => hw, hp0, le_refl _, le_refl _, ?_⟩
      intro rep hrep
      exact Except.noConfusion hrep
    | ok candidates =>
      simp only [hc]
      have hcnd : candidates.Nodup :=
        selectCandidates_ok_nodup hsnodup hsh (loadInvalidWords_nodup haw) hc
      have hdisj : ∀ w ∈ p0.validated_words, w ∉ candidates := by
        intro w hw hin
        exact (mem_loadInvalidWords.mp (selectCandidates_ok_mem hsmem hsh hc w hin)).2 hw
      have hnodup : (p0.validated_words ++ candidates).Nodup := by
        rw [List.nodup_append]
        exact ⟨hp0, hcnd, fun w hw hin => hdisj w hw hin⟩
      split
      · refine ⟨fun w hw => List.mem_append_left _ hw, hnodup, Nat.le_add_right _ _,
          Nat.le_add_right _ _, ?_⟩
        intro rep hrep
        exact Except.noConfusion hrep
      · refine ⟨fun w hw => List.mem_append_left _ hw, hnodup, Nat.le_add_right _ _,
          Nat.le_add_right _ _, ?_⟩
        intro rep hrep
        cases hrep
        simp

/-- Witness for C6 amended: after a concrete run the persisted
`validated_words` has no duplicates. -/
theorem run_progress_monotone_witness :
    ((runDailyValidation cRand (fun _ => WordStatus.valid) ["mind"] zeroProgress
        5 false "t").persisted.validated_words).Nodup :=
  (run_progress_monotone cRand (fun _ => WordStatus.valid) ["mind"] zeroProgress 5
      false "t"
      (fun xs k a h => (List.take_sublist k xs).subset h)
      (fun xs k h => List.Nodup.sublist (List.take_sublist k xs) h)
      (fun xs => List.Perm.refl xs) (by decide) (by decide)).2.1

/-- C7 counterexample: on the empty input list, `prioritize_words` does not
return a list at all — the pre-filter percentage logging divides by
`len(words)` and raises `ZeroDivisionError`. -/
theorem prioritize_empty_input_raises :
    prioritizeWords cRand ([] : List String) 5 = .error "ZeroDivisionError" := rfl

/-- C7 amended: whenever at least one input word passes the Stage A
pre-filter and `limit ≥ 1`, `prioritize_words(words, limit)` returns a list
of at most `limit` candidates, and every returned candidate's word is an
element of the input that passed `is_likely_english` (on an empty input, or
when no word survives Stage A, or when `limit = 0` forces an empty sample,
it raises instead). -/
theorem prioritize_bounded_from_stage_a
    (r : RandomSource) (words : List String) (limit : Nat)
    (hsmem : ∀ xs k a, a ∈ r.sample xs k → a ∈ xs)
    (hslen : ∀ xs k, (r.sample xs k).length = min k xs.length)
    (hsh : ∀ xs, List.Perm (r.shuffleCands xs) xs)
    (hsome : ∃ w ∈ words, isLikelyEnglish w = true) (hl : 1 ≤ limit) :
    (prioritizeWords r words limit).isOk = true
    ∧ ∀ cs, prioritizeWords r words limit = .ok cs →
        cs.length ≤ limit
        ∧ ∀ c ∈ cs, c.word ∈ words ∧ isLikelyEnglish c.word = true := by
  obtain ⟨w0, hw0, hle⟩ := hsome
  have hwne : ¬ (words.length = 0) := by
    cases words with
    | nil => cases hw0
    | cons a l => simp
  have hpoolne : sampledPool r words limit ≠ [] := by
    have hlA : 0 < (likelyEnglishOf words).length :=
      List.length_pos_of_mem (List.mem_filter.mpr ⟨hw0, hle⟩)
    rw [sampledPool]
    split
    · intro hnil
      have hlen := hslen (likelyEnglishOf words)
        (min (likelyEnglishOf words).length (limit * 50))
      rw [hnil] at hlen
      simp only [List.length_nil] at hlen
      omega
    · intro hnil
      rw [hnil] at hlA
      simp at hlA
  have hne3 : ∀ w ∈ sampledPool r words limit, w.data ≠ [] := fun w hw =>
    isLikelyEnglish_ne_nil (sampledPool_mem hsmem w hw).2
  obtain ⟨cands, hcands⟩ := mapScoreWord_ok_of_ne_nil hne3
  have hcne : cands.isEmpty = false := by
    cases hcc : cands with
    | nil =>
      rw [hcc] at hcands
      have h2 := mapScoreWord_words hcands
      simp only [List.map_nil] at h2
      exact absurd h2.symm hpoolne
    | cons c cs' => rfl
  have hok : prioritizeWords r words limit
      = .ok (tierFold r cands limit tierVals []) := by
    rw [prioritizeWords, if_neg hwne]
    simp only [hcands]
    rw [if_neg (by simp [hcne])]
  refine ⟨by rw [hok]; rfl, ?_⟩
  intro cs hcs
  rw [hok] at hcs
  cases hcs
  constructor
  · exact tierFold_length tierVals [] (Nat.zero_le _)
  · intro c hc
    rcases tierFold_mem hsh tierVals [] c hc with h | h
    · cases h
    · have hmw : c.word ∈ cands.map CandidateWord.word := List.mem_map_of_mem _ h
      rw [mapScoreWord_words hcands] at hmw
      exact sampledPool_mem hsmem c.word hmw

/-- Witness for C7 amended at the concrete input ["mind"], limit 5. -/
theorem prioritize_bounded_from_stage_a_witness :
    (prioritizeWords cRand ["mind"] 5).isOk = true :=
  (prioritize_bounded_from_stage_a cRand ["mind"] 5
    (fun xs k a h => (List.take_sublist k xs).subset h)
    (fun xs k => List.length_take k xs)
    (fun xs => List.Perm.refl xs)
    ⟨"mind", by decide, by decide⟩ (by decide)).1

theorem tierFold_skip_all {r : RandomSource} {cands : List CandidateWord} {limit : Nat} :
    ∀ ts acc, (∀ t ∈ ts, (cands.filter (fun c => tierOf c == t)).isEmpty = true) →
      tierFold r cands limit ts acc = acc := by
  intro ts
  induction ts with
  | nil => intro acc _; rfl
  | cons t ts ih =>
    intro acc h
    rw [tierFold, if_pos (h t (List.mem_cons_self t ts))]
    exact ih acc (fun t' ht' => h t' (List.mem_cons_of_mem _ ht'))

theorem tierFold_single {r : RandomSource} (c : CandidateWord) (limit : Nat)
    (hone : r.shuffleCands [c] = [c]) (hl : 1 ≤ limit) :
    ∀ ts, tierOf c ∈ ts → ts.Nodup → tierFold r [c] limit ts [] = [c] := by
  intro ts
  induction ts with
  | nil => intro h _; cases h
  | cons t ts ih =>
    intro hmem hnd
    by_cases ht : tierOf c = t
    · have hfil : [c].filter (fun x => tierOf x == t) = [c] := by simp [ht]
      rw [tierFold, hfil]
      rw [if_neg (by simp)]
      rw [hone]
      have hacc : ([] : List CandidateWord)
          ++ [c].take (limit - List.length ([] : List CandidateWord)) = [c] := by
        obtain ⟨k, rfl⟩ : ∃ k, limit = k + 1 := ⟨limit - 1, by omega⟩
        simp
      rw [hacc]
      apply tierFold_skip_all
      intro t' ht'
      have hne : ¬ (tierOf c = t') := by
        intro he
        exact (List.nodup_cons.mp hnd).1 (by rw [← ht, he]; exact ht')
      simp [hne]
    · have hfil : [c].filter (fun x => tierOf x == t) = [] := by simp [ht]
      rw [tierFold, hfil, if_pos (by rfl)]
      exact ih ((List.mem_cons.mp hmem).resolve_left ht) (List.nodup_cons.mp hnd).2

/-- C2 counterexample: on the corpus ["mind", "qzxjk", "superfluousness"]
with limit 2 and an always-`Valid` oracle, Stage A rejects not only "qzxjk"
but also "superfluousness" (productive-prefix rule: it starts with "super"
and the remainder exceeds 3 characters), so the run validates and promotes
only "mind" — not the claimed two words. -/
theorem run_scenario_counterexample :
    isLikelyEnglish "superfluousness" = false
    ∧ (runDailyValidation cRand (fun _ => WordStatus.valid)
        ["mind", "qzxjk", "superfluousness"] zeroProgress 2 false "t").report
      = Except.ok { success := true, validated := 1, promoted := 1,
                    promoted_words := ["mind"], message := none,
                    still_invalid := some 0, total_validated := some 1,
                    total_promoted := some 1, remaining := some 2 } := by
  constructor
  · decide
  · decide

/-- C2 amended: on the corpus ["mind", "qzxjk", "superfluousness"] with
limit 2 and an always-`Valid` oracle, the priority-mode run rejects "qzxjk"
(consonant-cluster signature) and "superfluousness" (productive-prefix
rule) at Stage A, selects only "mind", the Rule Validator accepts it, and
the report has validated = 1, promoted = 1, promoted_words = ["mind"], with
the checkpoint counters each increased by 1 — for every behaviour of the
within-tier shuffle. -/
theorem run_scenario_amended (r : RandomSource) (now : String)
    (hsh : ∀ xs, List.Perm (r.shuffleCands xs) xs) :
    runDailyValidation r (fun _ => WordStatus.valid)
        ["mind", "qzxjk", "superfluousness"] zeroProgress 2 false now
      = { selection := ["mind"],
          persisted := { validated_count := 1, promoted_count := 1,
                         last_run := some now, validated_words := ["mind"] },
          saves := [{ validated_count := 1, promoted_count := 1,
                      last_run := some now, validated_words := ["mind"] }],
          report := Except.ok { success := true, validated := 1, promoted := 1,
                                promoted_words := ["mind"], message := none,
                                still_invalid := some 0, total_validated := some 1,
                                total_promoted := some 1, remaining := some 2 } } := by
  have hone : r.shuffleCands [mindCand] = [mindCand] :=
    List.perm_singleton.mp (hsh [mindCand])
  have htf : tierFold r [mindCand] 2 tierVals [] = [mindCand] :=
    tierFold_single mindCand 2 hone (by decide) tierVals (by decide) (by decide)
  have hpool : sampledPool r ["mind", "qzxjk", "superfluousness"] 2 = ["mind"] := by
    have hcond : ¬ (2 * 10
        < (likelyEnglishOf ["mind", "qzxjk", "superfluousness"]).length) := by decide
    rw [sampledPool, if_neg hcond]
    decide
  have hprio : prioritizeWords r ["mind", "qzxjk", "superfluousness"] 2
      = .ok [mindCand] := by
    rw [prioritizeWords, if_neg (by decide)]
    rw [hpool]
    simp only [show mapScoreWord ["mind"] = Except.ok [mindCand] from by decide]
    rw [if_neg (by decide)]
    rw [htf]
  have hsel : selectCandidates r
      (loadInvalidWords ["mind", "qzxjk", "superfluousness"] zeroProgress) 2 false
      = .ok ["mind"] := by
    rw [show loadInvalidWords ["mind", "qzxjk", "superfluousness"] zeroProgress
      = ["mind", "qzxjk", "superfluousness"] from by decide]
    rw [selectCandidates, if_neg (by decide)]
    simp only [hprio]
    rfl
  simp only [runDailyValidation]
  rw [if_neg (by decide)]
  simp only [hsel]
  rfl

/-- Witness for C2 amended: the deterministic shuffle instantiation. -/
theorem run_scenario_amended_witness :
    runDailyValidation cRand (fun _ => WordStatus.valid)
        ["mind", "qzxjk", "superfluousness"] zeroProgress 2 false "t"
      = { selection := ["mind"],
          persisted := { validated_count := 1, promoted_count := 1,
                         last_run := some "t", validated_words := ["mind"] },
          saves := [{ validated_count := 1, promoted_count := 1,
                      last_run := some "t", validated_words := ["mind"] }],
          report := Except.ok { success := true, validated := 1, promoted := 1,
                                promoted_words := ["mind"], message := none,
                                still_invalid := some 0, total_validated := some 1,
                                total_promoted := some 1, remaining := some 2 } } :=
  run_scenario_amended cRand "t" (fun xs => List.Perm.refl xs)
